import Mathlib

/-!
Shallow embedding of the `ls` directory-listing utility (src/entry.rs,
src/error.rs, src/main.rs) and verification of its specification claims.

Modelling conventions:
* Rust `u64`/`usize` values are `Nat`; the single place where `usize`
  subtraction can underflow is modelled with explicit wrapping modulo `2^64`
  (release-mode semantics).
* A Rust panic or undefined behaviour (remainder by zero, `unwrap()` on
  `None`, dereferencing a NULL pointer from `getpwuid`/`getgrgid`) is
  modelled by an `Option` result being `none`.
* Terminal-styling escape codes produced by the `colored` crate are elided:
  only the displayed text (including the trailing `/` for directories)
  is modelled, as the spec delegates styling to a presentation collaborator.
* OS services (identity database, symlink reads, terminal size) are passed
  in explicitly as functions/values.
-/

namespace Ls

/-- `usize` modulus. -/
def USIZE : Nat := 2 ^ 64

/-- Rust release-mode `usize` subtraction: wraps modulo `2^64`. -/
def usizeSub (a b : Nat) : Nat := (a + USIZE - b) % USIZE

/-- `Kind` (entry.rs 20–25); the variant order gives the derived `Ord`:
Directory < Symlink < File. -/
inductive Kind where
  | directory
  | symlink
  | file
deriving DecidableEq, Repr

/-- Variant index of `Kind`, embedding the Rust `derive(Ord)` comparison. -/
def Kind.idx : Kind → Nat
  | .directory => 0
  | .symlink => 1
  | .file => 2

/-- Abstraction of `std::fs::FileType`: the code only asks `is_file` and
`is_dir`; every other type is lumped into `other`. -/
inductive FileType where
  | file
  | dir
  | other
deriving DecidableEq, Repr

/-- `impl From<fs::FileType> for Kind` (entry.rs 27–37): `is_file` checked
first, then `is_dir`, anything else becomes `Symlink`. -/
def Kind.ofFileType : FileType → Kind
  | .file => .file
  | .dir => .directory
  | .other => .symlink

/-- The fields of `fs::Metadata` the program reads: `uid()`, `gid()`,
`size()`, and the permission bits `permissions().mode()`. -/
structure Metadata where
  uid : Nat
  gid : Nat
  size : Nat
  mode : Nat
deriving DecidableEq, Repr

/-- `Entry` (entry.rs 39–45).  The `dir_entry` back-reference is modelled by
the entry's path, which is all the code uses it for (`dir_entry.path()` when
reading a symlink target). -/
structure Entry where
  kind : Kind
  name : String
  metadata : Metadata
  path : String
deriving DecidableEq, Repr

/-- Rust's `Ord::cmp` on integers as an `Ordering`-valued comparison. -/
def natCmp (a b : Nat) : Ordering :=
  if a < b then .lt else if b < a then .gt else .eq

/-- The derived `Ord` on `Kind`: comparison of variant indices. -/
def kindCmp (a b : Kind) : Ordering := natCmp a.idx b.idx

/-- Rust `char` comparison: by Unicode codepoint. -/
def charCmp (a b : Char) : Ordering := natCmp a.toNat b.toNat

/-- Rust `String` comparison: lexicographic on the character sequence
(UTF-8 byte order coincides with codepoint order). -/
def strCmp : List Char → List Char → Ordering
  | [], [] => .eq
  | [], _ :: _ => .lt
  | _ :: _, [] => .gt
  | a :: as, b :: bs =>
    match charCmp a b with
    | .eq => strCmp as bs
    | o => o

/-- The ASCII fragment of Rust's `str::to_lowercase` (`A`–`Z` map to
`a`–`z`); the full Unicode case table is outside the model, so the ordering
development is relative to this case-folding function. -/
def lowerChar (c : Char) : Char :=
  if 'A' ≤ c ∧ c ≤ 'Z' then Char.ofNat (c.toNat + 32) else c

/-- `to_lowercase` applied to a name's character sequence. -/
def lowerStr (s : List Char) : List Char := s.map lowerChar

/-- `Entry::partial_cmp` (entry.rs 55–67): kind first, then the lowercased
names, then the exact names.  The Rust function always returns `Some`, and
`Ord::cmp` unwraps it (entry.rs 69–73), so this is the total comparator. -/
def entryCmp (a b : Entry) : Ordering :=
  match kindCmp a.kind b.kind with
  | .eq =>
    match strCmp (lowerStr a.name.data) (lowerStr b.name.data) with
    | .eq => strCmp a.name.data b.name.data
    | o => o
  | o => o

/-- `Entry::is_hidden` (entry.rs 100–102): the name starts with `'.'`. -/
def Entry.isHidden (e : Entry) : Bool :=
  match e.name.data with
  | '.' :: _ => true
  | _ => false

/-- `Entry::is_executable` (entry.rs 104–110); only used to pick a text
style, so no rendering claim depends on it. -/
def Entry.isExecutable (e : Entry) : Bool :=
  e.kind = Kind.file && e.metadata.mode &&& 0o111 ≠ 0

/-- Rust `String::len`: the UTF-8 byte count. -/
def strLen (s : String) : Nat := s.utf8ByteSize

/-- `Entry::len` (entry.rs 112–118): display width in bytes, `+1` for the
`/` appended to directories. -/
def Entry.len (e : Entry) : Nat :=
  if e.kind = Kind.directory then strLen e.name + 1 else strLen e.name

/-- The display text of `impl fmt::Display for Entry` (entry.rs 88–97) with
styling elided; the trailing `/` for directories is part of the text. -/
def Entry.displayText (e : Entry) : String :=
  if e.kind = Kind.directory then e.name ++ "/" else e.name

/-- Unit constants (entry.rs 16–18).  Note the values: the constant named
`GIGABYTE` is `10^6` and the one named `TERABYTE` is `10^9`. -/
def KILOBYTE : Nat := 1000

/-- `KILOBYTE * 1000 = 10^6` (entry.rs 17). -/
def GIGABYTE : Nat := KILOBYTE * 1000

/-- `GIGABYTE * 1000 = 10^9` (entry.rs 18). -/
def TERABYTE : Nat := GIGABYTE * 1000

/-- The size `match` of `TryFrom<Entry> for LongEntry` (entry.rs 147–152).
`u64` is modelled as `Nat`; the expression only divides, so no overflow
arises. -/
def formatSize (b : Nat) : String :=
  if b < KILOBYTE then toString b ++ "B"
  else if b < GIGABYTE then
    toString (b / KILOBYTE) ++ "." ++ toString (b % KILOBYTE / (KILOBYTE / 10)) ++ "K"
  else if b < TERABYTE then
    toString (b / GIGABYTE) ++ "." ++ toString (b % GIGABYTE / (GIGABYTE / 10)) ++ "G"
  else
    toString (b / TERABYTE) ++ "." ++ toString (b % TERABYTE / (TERABYTE / 10)) ++ "T"

/-- Payload of `std::io::Error` as error.rs consumes it: the display text
and `raw_os_error()`. -/
structure IoError where
  msg : String
  rawOsError : Option Int
deriving DecidableEq, Repr

/-- `Error` (error.rs 4–9). -/
inductive Error where
  | io : IoError → Error
  | stringConversion : Error
  | unknownFlag : String → Error
deriving DecidableEq, Repr

/-- `Error::message` (error.rs 32–38). -/
def Error.message : Error → String
  | .io e => e.msg
  | .stringConversion => "File name includes invalid Unicode data"
  | .unknownFlag flag => "Unknown flag \"" ++ flag ++ "\""

/-- `Error::code` (error.rs 40–45). -/
def Error.code : Error → Int
  | .io e => e.rawOsError.getD 1
  | _ => 1

/-- A raw `fs::DirEntry` as the program consumes it: the result of
`file_name().into_string()` (error = name not valid Unicode), the results of
the `file_type()` and `metadata()` calls, and the entry's path. -/
structure DirEntry where
  fileName : Except Unit String
  fileType : Except IoError FileType
  metadata : Except IoError Metadata
  path : String

/-- `TryFrom<fs::DirEntry> for Entry` (entry.rs 75–86): field order in the
struct literal makes the name conversion happen first (its failure becomes
`Error::StringConversion` via `From<ffi::OsString>`, error.rs 19–23), then
the file-type and metadata lookups. -/
def Entry.tryFrom (d : DirEntry) : Except Error Entry :=
  match d.fileName with
  | .error _ => .error .stringConversion
  | .ok name =>
    match d.fileType with
    | .error e => .error (.io e)
    | .ok ft =>
      match d.metadata with
      | .error e => .error (.io e)
      | .ok md =>
        .ok { kind := Kind.ofFileType ft, name := name, metadata := md, path := d.path }

/-- `read_entries` (entry.rs 186–200) after the initial `read_dir`
collection: convert each raw entry (the first failure aborts the whole
read), skipping hidden entries unless `all`. -/
def readEntries : List DirEntry → Bool → Except Error (List Entry)
  | [], _ => .ok []
  | d :: rest, all =>
    match Entry.tryFrom d with
    | .error e => .error e
    | .ok entry =>
      match readEntries rest all with
      | .error e => .error e
      | .ok tail => .ok (if !all && entry.isHidden then tail else entry :: tail)

/-- `LongEntry` (entry.rs 121–129). -/
structure LongEntry where
  entry : Entry
  owner : String
  group : String
  size : String
  linkTarget : Option String
deriving DecidableEq, Repr

/-- The OS services the long-format conversion calls: `getpwuid`/`getgrgid`
(a `none` result models the NULL pointer returned for an unregistered ID)
and `fs::read_link`. -/
structure OsEnv where
  getpwuid : Nat → Option String
  getgrgid : Nat → Option String
  readLink : String → Except IoError String

/-- `TryFrom<Entry> for LongEntry` (entry.rs 131–168).  The outer `Option`
is `none` when the code crashes: `(*passwd).pw_name` and `(*group).gr_name`
dereference the lookup result without a NULL check, so an unregistered ID
is a NULL dereference, not a fallback.  `to_string_lossy` is the identity
here because the environment already supplies `String`s. -/
def LongEntry.tryFrom (env : OsEnv) (e : Entry) : Option (Except Error LongEntry) :=
  match env.getpwuid e.metadata.uid with
  | none => none
  | some owner =>
    match env.getgrgid e.metadata.gid with
    | none => none
    | some group =>
      let size := formatSize e.metadata.size
      if e.kind = Kind.symlink then
        match env.readLink e.path with
        | .error ioe => some (.error (.io ioe))
        | .ok target =>
          some (.ok { entry := e, owner := owner, group := group, size := size,
                      linkTarget := some target })
      else
        some (.ok { entry := e, owner := owner, group := group, size := size,
                    linkTarget := none })

/-- `impl fmt::Display for LongEntry` (entry.rs 171–184), styling elided.
`none` models the `unwrap()` panic on a symlink without a stored target. -/
def LongEntry.display (le : LongEntry) : Option String :=
  if le.entry.kind = Kind.symlink then
    match le.linkTarget with
    | some t => some (le.entry.name ++ " -> " ++ t)
    | none => none
  else
    some le.entry.displayText

/-- `" ".repeat(n)`. -/
def spaces (n : Nat) : String := String.mk (List.replicate n ' ')

/-- Fast-path loop of `print_entries_short` (entry.rs 207–213): two spaces
after every entry except the last, which gets the newline of `println!`. -/
def fastLine : List Entry → String
  | [] => ""
  | [e] => e.displayText ++ "\n"
  | e :: rest => e.displayText ++ "  " ++ fastLine rest

/-- One padded grid cell (entry.rs 225): the entry text, right-padding to
`maxW`, and the two-space gutter. -/
def padCell (maxW : Nat) (e : Entry) : String :=
  e.displayText ++ spaces (maxW - e.len) ++ "  "

/-- Column-path loop of `print_entries_short` (entry.rs 221–227), carrying
the running index.  When `epl = 0` the caller returns `none` instead of
running this loop, because every `% entries_per_line` would panic. -/
def colLoop (epl maxW : Nat) : Nat → List Entry → String
  | _, [] => ""
  | i, e :: rest =>
    (if (i + 1) % epl = 0 then e.displayText ++ "\n" else padCell maxW e)
      ++ colLoop epl maxW (i + 1) rest

/-- The fast-path fold of entry.rs 206: each entry's width plus a two-space
separator. -/
def shortTotal (entries : List Entry) : Nat :=
  entries.foldl (fun acc e => acc + e.len + 2) 0

/-- `entries.iter().map(Entry::len).max().unwrap_or(0)` (entry.rs 218); for
`Nat` the fold with base 0 computes exactly that maximum. -/
def shortMaxW (entries : List Entry) : Nat :=
  (entries.map Entry.len).foldl max 0

/-- The body of `print_entries_short` (entry.rs 202–233) given the resolved
terminal width.  `none` models the panic: when `entries_per_line` is zero
the first evaluated `% entries_per_line` (entry.rs 222 for a non-empty
list, entry.rs 230 otherwise) is a remainder by zero, which panics.  The
`- 2` on the fast-path total is release-mode `usize` subtraction. -/
def printEntriesShortCore (entries : List Entry) (width : Nat) : Option String :=
  if width ≥ usizeSub (shortTotal entries) 2 then
    some (fastLine entries)
  else
    let maxW := shortMaxW entries
    let epl := width / (maxW + 2)
    if epl = 0 then none
    else some (colLoop epl maxW 0 entries ++ if entries.length % epl = 0 then "" else "\n")

/-- `terminal_size().map_or(Width(80), |size| size.0)` (entry.rs 203): the
detected width, or 80 columns when the terminal size is unavailable. -/
def resolveWidth : Option Nat → Nat
  | none => 80
  | some w => w

/-- `print_entries_short` (entry.rs 202–233): resolve the terminal width,
then lay the entries out. -/
def printEntriesShort (ts : Option Nat) (entries : List Entry) : Option String :=
  printEntriesShortCore entries (resolveWidth ts)

/-- `max_field_width!` (entry.rs 10–14):
`iter().map(|v| v.$field.len()).max().unwrap_or(0)`; for `Nat` the fold
with base 0 computes exactly that maximum. -/
def maxFieldWidth (f : LongEntry → String) (l : List LongEntry) : Nat :=
  (l.map fun v => strLen (f v)).foldl max 0

/-- One output line of `print_entries_long` (entry.rs 240–251). -/
def longLine (maxO maxG maxS : Nat) (le : LongEntry) : Option String :=
  (le.display).map fun d =>
    spaces (maxO - strLen le.owner) ++ le.owner ++ " " ++
    spaces (maxG - strLen le.group) ++ le.group ++ " " ++
    spaces (maxS - strLen le.size) ++ le.size ++ " " ++ d ++ "\n"

/-- Concatenation of the printed lines; `none` anywhere (a display panic)
drops the output, modelling the abort mid-print. -/
def joinLines : List (Option String) → Option String
  | [] => some ""
  | l :: rest =>
    match l with
    | none => none
    | some s =>
      match joinLines rest with
      | none => none
      | some t => some (s ++ t)

/-- `print_entries_long` (entry.rs 235–252). -/
def printEntriesLong (entries : List LongEntry) : Option String :=
  joinLines (entries.map
    (longLine (maxFieldWidth (fun v => v.owner) entries)
      (maxFieldWidth (fun v => v.group) entries)
      (maxFieldWidth (fun v => v.size) entries)))

/-- The `take_while` predicate of `parse_flags` (main.rs 35–37):
`arg.starts_with('-') && arg != "--"`. -/
def isFlagArg (a : String) : Bool :=
  (match a.data with
   | '-' :: _ => true
   | _ => false) && a ≠ "--"

/-- `trim_start_matches('-')` on the character list. -/
def trimDashes (s : List Char) : List Char := s.dropWhile (· = '-')

/-- The inner character loop of `parse_flags` (main.rs 39–53); `split("")`
on a `&str` yields its characters, and an unknown character becomes
`Error::UnknownFlag` via `print_and_exit`, modelled as the error value. -/
def parseFlagChars : List Char → Bool → Bool → Except Error (Bool × Bool)
  | [], all, long => .ok (all, long)
  | c :: rest, all, long =>
    if c = 'a' then parseFlagChars rest true long
    else if c = 'l' then parseFlagChars rest all true
    else .error (.unknownFlag (String.mk [c]))

/-- The outer argument loop of `parse_flags` (main.rs 39–53). -/
def parseFlagsGo : List String → Bool → Bool → Except Error (Bool × Bool)
  | [], all, long => .ok (all, long)
  | a :: rest, all, long =>
    match parseFlagChars (trimDashes a.data) all long with
    | .error e => .error e
    | .ok (all2, long2) => parseFlagsGo rest all2 long2

/-- `parse_flags` (main.rs 31–56). -/
def parseFlags (argv : List String) : Except Error (Bool × Bool) :=
  parseFlagsGo ((argv.drop 1).takeWhile isFlagArg) false false

/-- Insertion step of the stable-sort model of `entries.sort()`. -/
def insertEntry (e : Entry) : List Entry → List Entry
  | [] => [e]
  | x :: xs => if entryCmp e x = .lt then e :: x :: xs else x :: insertEntry e xs

/-- `entries.sort()` (main.rs 17): a stable sort by `entryCmp`; insertion
sort serves as the executable stable-sort model. -/
def sortEntries : List Entry → List Entry
  | [] => []
  | x :: xs => insertEntry x (sortEntries xs)

/-- `entries.into_iter().map(try_into).collect::<Result<Vec<_>>>()`
(main.rs 20–24): first error wins; an outer `none` is a crash inside a
conversion. -/
def longConvertAll (env : OsEnv) : List Entry → Option (Except Error (List LongEntry))
  | [] => some (.ok [])
  | e :: rest =>
    match LongEntry.tryFrom env e with
    | none => none
    | some (.error err) => some (.error err)
    | some (.ok le) =>
      match longConvertAll env rest with
      | none => none
      | some (.error err) => some (.error err)
      | some (.ok tail) => some (.ok (le :: tail))

/-- `main` (main.rs 7–29) over explicit inputs: the argument vector, the
contents of the target directory, the OS identity/symlink services, and the
terminal size.  `some (.error e)` is `print_and_exit` with `e`; an outer
`none` is a crash.  `current_dir` and the path join only select which
directory is read, so the directory contents are the explicit `dir`
input. -/
def mainLs (argv : List String) (dir : List DirEntry) (env : OsEnv) (ts : Option Nat) :
    Option (Except Error String) :=
  match parseFlags argv with
  | .error e => some (.error e)
  | .ok (all, long) =>
    match readEntries dir all with
    | .error e => some (.error e)
    | .ok entries =>
      let sorted := sortEntries entries
      if long then
        match longConvertAll env sorted with
        | none => none
        | some (.error e) => some (.error e)
        | some (.ok les) =>
          match printEntriesLong les with
          | none => none
          | some out => some (.ok out)
      else
        match printEntriesShort ts sorted with
        | none => none
        | some out => some (.ok out)

/-! ### Specification-side definitions used by the claim statements -/

/-- The size formatter exactly as claim C1 words it: tiers `B` below `10^3`,
`K` below `10^6`, `G` below `10^12`, `T` otherwise, with the truncated-tenths
scheme against the unit of each tier (the claim's boundary examples fix the
`G` unit at `10^6`).  This definition follows the claim, not the source; it
exists to be compared with `formatSize`. -/
def formatSizeClaimed (b : Nat) : String :=
  if b < 1000 then toString b ++ "B"
  else if b < 1000000 then
    toString (b / 1000) ++ "." ++ toString (b % 1000 / 100) ++ "K"
  else if b < 1000000000000 then
    toString (b / 1000000) ++ "." ++ toString (b % 1000000 / 100000) ++ "G"
  else
    toString (b / 1000000000000) ++ "." ++
      toString (b % 1000000000000 / 100000000000) ++ "T"

/-- The successfully converted entries of a raw listing, in input order. -/
def convertedEntries (ds : List DirEntry) : List Entry :=
  ds.filterMap fun d => (Entry.tryFrom d).toOption

/-- Right-alignment of `s` into a column of `w` byte columns. -/
def rightAlign (w : Nat) (s : String) : String := spaces (w - strLen s) ++ s

/-- Specification of one long-mode line: three right-aligned columns, single
space separators, then the displayed name. -/
def longLineSpec (maxO maxG maxS : Nat) (le : LongEntry) : String :=
  rightAlign maxO le.owner ++ " " ++ rightAlign maxG le.group ++ " " ++
    rightAlign maxS le.size ++ " " ++ (le.display).getD "" ++ "\n"

/-- Chunking of a list into rows of `n` (the final row may be shorter). -/
def chunksOf (n : Nat) : List Entry → List (List Entry)
  | [] => []
  | x :: xs => (x :: xs.take (n - 1)) :: chunksOf n (xs.drop (n - 1))
  termination_by l => l.length
  decreasing_by simp [List.length_drop]; omega

/-- A full grid row: every entry but the last padded with the gutter, the
last followed by a bare newline. -/
def rowFull (maxW : Nat) : List Entry → String
  | [] => ""
  | [e] => e.displayText ++ "\n"
  | e :: rest => padCell maxW e ++ rowFull maxW rest

/-- One row of the grid specification: a row of exactly `epl` entries is a
full row; a shorter (final) row has every entry padded with the gutter,
followed by the final newline. -/
def renderRow (epl maxW : Nat) (row : List Entry) : String :=
  if row.length = epl then rowFull maxW row
  else String.join (row.map (padCell maxW)) ++ "\n"

/-- Row-major grid specification: chunk into rows of `epl` entries and
render each row. -/
def gridSpec (epl maxW : Nat) (entries : List Entry) : String :=
  String.join ((chunksOf epl entries).map (renderRow epl maxW))

/-- The bundled flag characters of a command line: the characters, in order,
of the leading flag arguments (before the first non-flag argument or `--`),
with their leading dashes stripped. -/
def bundledFlagChars (argv : List String) : List Char :=
  ((((argv.drop 1).takeWhile isFlagArg).map fun a => trimDashes a.data)).flatten

/-- A flag character the program does not recognize. -/
def badFlagChar (c : Char) : Bool := c != 'a' && c != 'l'

/-- The first bundled flag character other than `a` or `l`. -/
def firstBadFlag (argv : List String) : Option Char :=
  (bundledFlagChars argv).find? badFlagChar

/-! ### General helper lemmas -/

theorem foldl_append_shift (l : List String) : ∀ a b : String,
    List.foldl (fun r t => r ++ t) (a ++ b) l = a ++ List.foldl (fun r t => r ++ t) b l := by
  induction l with
  | nil => intro a b; rfl
  | cons x xs ih =>
    intro a b
    show List.foldl (fun r t => r ++ t) (a ++ b ++ x) xs = _
    rw [String.append_assoc, ih]
    rfl

theorem strJoin_cons (s : String) (l : List String) :
    String.join (s :: l) = s ++ String.join l := by
  show List.foldl (fun r t => r ++ t) ("" ++ s) l = s ++ String.join l
  have h0 : ("" ++ s : String) = s ++ "" := by simp
  rw [h0, foldl_append_shift]
  rfl

theorem intercalate_go_shift (s : String) : ∀ (l : List String) (a b : String),
    String.intercalate.go (a ++ b) s l = a ++ String.intercalate.go b s l := by
  intro l
  induction l with
  | nil => intro a b; rfl
  | cons c cs ih =>
    intro a b
    show String.intercalate.go (a ++ b ++ s ++ c) s cs = _
    rw [String.append_assoc, String.append_assoc, ← String.append_assoc b s c, ih]
    rfl

theorem intercalate_cons₂ (s a b : String) (l : List String) :
    String.intercalate s (a :: b :: l) = a ++ s ++ String.intercalate s (b :: l) := by
  show String.intercalate.go a s (b :: l) = a ++ s ++ String.intercalate.go b s l
  show String.intercalate.go (a ++ s ++ b) s l = _
  rw [String.append_assoc, intercalate_go_shift, intercalate_go_shift, String.append_assoc]

theorem mod_succ_lt {p epl : Nat} (h : p % epl + 1 < epl) : (p + 1) % epl = p % epl + 1 := by
  have hd := Nat.div_add_mod p epl
  have : p + 1 = epl * (p / epl) + (p % epl + 1) := by omega
  rw [this, Nat.mul_add_mod, Nat.mod_eq_of_lt h]

theorem mod_succ_eq {p epl : Nat} (h : p % epl + 1 = epl) : (p + 1) % epl = 0 := by
  have hd := Nat.div_add_mod p epl
  have : p + 1 = epl * (p / epl) + (p % epl + 1) := by omega
  rw [this, Nat.mul_add_mod, h, Nat.mod_self]

/-! ### Ordering helper lemmas -/

theorem natCmp_swap (a b : Nat) : (natCmp a b).swap = natCmp b a := by
  unfold natCmp
  rcases Nat.lt_trichotomy a b with h | h | h
  · simp [h, Nat.lt_asymm h, Ordering.swap]
  · simp [h, Nat.lt_irrefl, Ordering.swap]
  · simp [h, Nat.lt_asymm h, Ordering.swap]

theorem natCmp_eq_iff (a b : Nat) : natCmp a b = .eq ↔ a = b := by
  unfold natCmp
  rcases Nat.lt_trichotomy a b with h | h | h
  · simp [h]; omega
  · simp [h, Nat.lt_irrefl]
  · simp [Nat.lt_asymm h, h]; omega

theorem natCmp_lt_iff (a b : Nat) : natCmp a b = .lt ↔ a < b := by
  unfold natCmp
  rcases Nat.lt_trichotomy a b with h | h | h
  · simp [h]
  · simp [h, Nat.lt_irrefl]
  · simp [Nat.lt_asymm h, h]

theorem char_toNat_inj {a b : Char} (h : a.toNat = b.toNat) : a = b := by
  simp [Char.toNat] at h
  exact Char.ext (UInt32.ext h)

theorem charCmp_swap (a b : Char) : (charCmp a b).swap = charCmp b a := natCmp_swap _ _

theorem charCmp_eq_iff (a b : Char) : charCmp a b = .eq ↔ a = b := by
  constructor
  · intro h; exact char_toNat_inj ((natCmp_eq_iff _ _).mp h)
  · rintro rfl; exact (natCmp_eq_iff _ _).mpr rfl

theorem charCmp_lt_trans {a b c : Char} (h₁ : charCmp a b = .lt) (h₂ : charCmp b c = .lt) :
    charCmp a c = .lt :=
  (natCmp_lt_iff _ _).mpr (Nat.lt_trans ((natCmp_lt_iff _ _).mp h₁) ((natCmp_lt_iff _ _).mp h₂))

theorem strCmp_eq_iff (x : List Char) : ∀ y, strCmp x y = .eq ↔ x = y := by
  induction x with
  | nil => intro y; cases y <;> simp [strCmp]
  | cons a as ih =>
    intro y
    cases y with
    | nil => simp [strCmp]
    | cons b bs =>
      simp only [strCmp]
      cases h : charCmp a b with
      | eq =>
        have hab : a = b := (charCmp_eq_iff a b).mp h
        subst hab
        simpa using ih bs
      | lt =>
        have : a ≠ b := fun hab => by
          rw [hab] at h
          rw [(charCmp_eq_iff b b).mpr rfl] at h
          cases h
        simp [this]
      | gt =>
        have : a ≠ b := fun hab => by
          rw [hab] at h
          rw [(charCmp_eq_iff b b).mpr rfl] at h
          cases h
        simp [this]

theorem strCmp_swap (x : List Char) : ∀ y, (strCmp x y).swap = strCmp y x := by
  induction x with
  | nil => intro y; cases y <;> simp [strCmp, Ordering.swap]
  | cons a as ih =>
    intro y
    cases y with
    | nil => simp [strCmp, Ordering.swap]
    | cons b bs =>
      simp only [strCmp]
      cases h : charCmp a b with
      | eq =>
        have hba : charCmp b a = .eq := by
          rw [← charCmp_swap, h]; rfl
        rw [hba]
        exact ih bs
      | lt =>
        have hba : charCmp b a = .gt := by
          rw [← charCmp_swap, h]; rfl
        rw [hba]; rfl
      | gt =>
        have hba : charCmp b a = .lt := by
          rw [← charCmp_swap, h]; rfl
        rw [hba]; rfl

theorem strCmp_lt_trans (x : List Char) : ∀ y z, strCmp x y = .lt → strCmp y z = .lt →
    strCmp x z = .lt := by
  induction x with
  | nil =>
    intro y z h₁ h₂
    cases y with
    | nil => cases h₁
    | cons b bs =>
      cases z with
      | nil => cases h₂
      | cons c cs => simp [strCmp]
  | cons a as ih =>
    intro y z h₁ h₂
    cases y with
    | nil => cases h₁
    | cons b bs =>
      cases z with
      | nil => cases h₂
      | cons c cs =>
        simp only [strCmp] at h₁ h₂ ⊢
        cases hab : charCmp a b with
        | gt => rw [hab] at h₁; cases h₁
        | lt =>
          cases hbc : charCmp b c with
          | gt => rw [hbc] at h₂; cases h₂
          | lt => rw [charCmp_lt_trans hab hbc]
          | eq =>
            have : b = c := (charCmp_eq_iff b c).mp hbc
            subst this
            rw [hab]
        | eq =>
          have : a = b := (charCmp_eq_iff a b).mp hab
          subst this
          cases hbc : charCmp a c with
          | gt => rw [hbc] at h₂; cases h₂
          | lt => rfl
          | eq =>
            rw [hab] at h₁
            rw [hbc] at h₂
            exact ih bs cs h₁ h₂

theorem Kind.idx_inj : ∀ {a b : Kind}, a.idx = b.idx → a = b := by
  intro a b
  cases a <;> cases b <;> simp [Kind.idx]

theorem kindCmp_swap (a b : Kind) : (kindCmp a b).swap = kindCmp b a := natCmp_swap _ _

theorem kindCmp_eq_iff (a b : Kind) : kindCmp a b = .eq ↔ a = b := by
  constructor
  · intro h; exact Kind.idx_inj ((natCmp_eq_iff _ _).mp h)
  · rintro rfl; exact (natCmp_eq_iff _ _).mpr rfl

theorem kindCmp_lt_trans {a b c : Kind} (h₁ : kindCmp a b = .lt) (h₂ : kindCmp b c = .lt) :
    kindCmp a c = .lt :=
  (natCmp_lt_iff _ _).mpr (Nat.lt_trans ((natCmp_lt_iff _ _).mp h₁) ((natCmp_lt_iff _ _).mp h₂))

theorem ordering_then_swap (x y : Ordering) : (x.then y).swap = x.swap.then y.swap := by
  cases x <;> cases y <;> rfl

theorem ordering_then_eq_iff (x y : Ordering) : x.then y = .eq ↔ x = .eq ∧ y = .eq := by
  cases x <;> cases y <;> simp [Ordering.then]

theorem entryCmp_lex (a b : Entry) :
    entryCmp a b = (kindCmp a.kind b.kind).then
      ((strCmp (lowerStr a.name.data) (lowerStr b.name.data)).then
        (strCmp a.name.data b.name.data)) := by
  unfold entryCmp
  cases kindCmp a.kind b.kind <;>
    cases strCmp (lowerStr a.name.data) (lowerStr b.name.data) <;> rfl

theorem entryCmp_swap (a b : Entry) : (entryCmp a b).swap = entryCmp b a := by
  rw [entryCmp_lex a b, entryCmp_lex b a, ordering_then_swap, ordering_then_swap,
    kindCmp_swap, strCmp_swap, strCmp_swap]

theorem entryCmp_eq_iff (a b : Entry) :
    entryCmp a b = .eq ↔ a.kind = b.kind ∧ a.name = b.name := by
  rw [entryCmp_lex, ordering_then_eq_iff, ordering_then_eq_iff]
  constructor
  · rintro ⟨hk, _, hn⟩
    exact ⟨(kindCmp_eq_iff _ _).mp hk, String.ext ((strCmp_eq_iff _ _).mp hn)⟩
  · rintro ⟨hk, hn⟩
    refine ⟨(kindCmp_eq_iff _ _).mpr hk, ?_, ?_⟩
    · exact (strCmp_eq_iff _ _).mpr (by rw [hn])
    · exact (strCmp_eq_iff _ _).mpr (by rw [hn])

theorem entryCmp_lt_trans {a b c : Entry} (h₁ : entryCmp a b = .lt) (h₂ : entryCmp b c = .lt) :
    entryCmp a c = .lt := by
  unfold entryCmp at h₁ h₂ ⊢
  cases hab : kindCmp a.kind b.kind with
  | gt => rw [hab] at h₁; cases h₁
  | lt =>
    cases hbc : kindCmp b.kind c.kind with
    | gt => rw [hbc] at h₂; cases h₂
    | lt => rw [kindCmp_lt_trans hab hbc]
    | eq =>
      have hk : b.kind = c.kind := (kindCmp_eq_iff _ _).mp hbc
      rw [← hk, hab]
  | eq =>
    have hk : a.kind = b.kind := (kindCmp_eq_iff _ _).mp hab
    rw [hab] at h₁
    cases hbc : kindCmp b.kind c.kind with
    | gt => rw [hbc] at h₂; cases h₂
    | lt => rw [hk, hbc]
    | eq =>
      have hk2 : b.kind = c.kind := (kindCmp_eq_iff _ _).mp hbc
      rw [hbc] at h₂
      have hac : kindCmp a.kind c.kind = .eq := (kindCmp_eq_iff _ _).mpr (hk.trans hk2)
      rw [hac]
      cases hl1 : strCmp (lowerStr a.name.data) (lowerStr b.name.data) with
      | gt => rw [hl1] at h₁; cases h₁
      | lt =>
        cases hl2 : strCmp (lowerStr b.name.data) (lowerStr c.name.data) with
        | gt => rw [hl2] at h₂; cases h₂
        | lt => rw [strCmp_lt_trans _ _ _ hl1 hl2]
        | eq =>
          have he : lowerStr b.name.data = lowerStr c.name.data := (strCmp_eq_iff _ _).mp hl2
          rw [← he, hl1]
      | eq =>
        have he1 : lowerStr a.name.data = lowerStr b.name.data := (strCmp_eq_iff _ _).mp hl1
        rw [hl1] at h₁
        cases hl2 : strCmp (lowerStr b.name.data) (lowerStr c.name.data) with
        | gt => rw [hl2] at h₂; cases h₂
        | lt => rw [he1, hl2]
        | eq =>
          rw [hl2] at h₂
          have he2 : lowerStr b.name.data = lowerStr c.name.data := (strCmp_eq_iff _ _).mp hl2
          have hle : strCmp (lowerStr a.name.data) (lowerStr c.name.data) = .eq :=
            (strCmp_eq_iff _ _).mpr (he1.trans he2)
          rw [hle]
          exact strCmp_lt_trans _ _ _ h₁ h₂

/-- **C3**: `entryCmp` is the total, deterministic comparator that is
lexicographic on the triple `(kind, lowercase(name), name)`: kinds are
ordered Directory < Symlink < File; it is antisymmetric under swapping and
transitive (a total order); two entries compare equal iff they agree on kind
and name; within a kind the lowercased names decide first and the exact
names break ties; and `a` sorts before `B`. -/
theorem C3_entry_ordering :
    (kindCmp Kind.directory Kind.symlink = .lt ∧ kindCmp Kind.symlink Kind.file = .lt ∧
      kindCmp Kind.directory Kind.file = .lt) ∧
    (∀ a b : Entry, entryCmp a b =
      (kindCmp a.kind b.kind).then
        ((strCmp (lowerStr a.name.data) (lowerStr b.name.data)).then
          (strCmp a.name.data b.name.data))) ∧
    (∀ a b : Entry, (entryCmp a b).swap = entryCmp b a) ∧
    (∀ a b c : Entry, entryCmp a b = .lt → entryCmp b c = .lt → entryCmp a c = .lt) ∧
    (∀ a b : Entry, (entryCmp a b = .eq ↔ a.kind = b.kind ∧ a.name = b.name)) ∧
    (∀ a b : Entry, a.kind = b.kind →
      strCmp (lowerStr a.name.data) (lowerStr b.name.data) ≠ .eq →
      entryCmp a b = strCmp (lowerStr a.name.data) (lowerStr b.name.data)) ∧
    (∀ a b : Entry, a.kind = b.kind →
      strCmp (lowerStr a.name.data) (lowerStr b.name.data) = .eq →
      entryCmp a b = strCmp a.name.data b.name.data) ∧
    entryCmp ⟨Kind.file, "a", ⟨0, 0, 0, 0⟩, ""⟩ ⟨Kind.file, "B", ⟨0, 0, 0, 0⟩, ""⟩ = .lt := by
  refine ⟨⟨rfl, rfl, rfl⟩, entryCmp_lex, entryCmp_swap, fun a b c => entryCmp_lt_trans,
    entryCmp_eq_iff, ?_, ?_, by decide⟩
  · intro a b hk hne
    unfold entryCmp
    rw [(kindCmp_eq_iff _ _).mpr hk]
    cases hl : strCmp (lowerStr a.name.data) (lowerStr b.name.data) with
    | eq => exact absurd hl hne
    | lt => rfl
    | gt => rfl
  · intro a b hk hl
    unfold entryCmp
    rw [(kindCmp_eq_iff _ _).mpr hk, hl]

/-- Witness for C3: the transitivity component applied to a concrete
directory, symlink and file entry. -/
theorem C3_entry_ordering_witness :
    entryCmp ⟨Kind.directory, "docs", ⟨0, 0, 0, 0⟩, ""⟩
      ⟨Kind.file, "a", ⟨0, 0, 0, 0⟩, ""⟩ = .lt :=
  C3_entry_ordering.2.2.2.1 _ ⟨Kind.symlink, "link", ⟨0, 0, 0, 0⟩, ""⟩ _
    (by decide) (by decide)

/-- All fields `LongEntry.tryFrom` assigns when it succeeds. -/
theorem LongEntry.tryFrom_ok_fields {env : OsEnv} {e : Entry} {le : LongEntry}
    (h : LongEntry.tryFrom env e = some (.ok le)) :
    le.entry = e ∧ le.size = formatSize e.metadata.size ∧
      (le.linkTarget.isSome ↔ e.kind = Kind.symlink) := by
  unfold LongEntry.tryFrom at h
  cases hp : env.getpwuid e.metadata.uid with
  | none => rw [hp] at h; cases h
  | some owner =>
    rw [hp] at h
    dsimp only at h
    cases hg : env.getgrgid e.metadata.gid with
    | none => rw [hg] at h; cases h
    | some group =>
      rw [hg] at h
      dsimp only at h
      by_cases hk : e.kind = Kind.symlink
      · rw [if_pos hk] at h
        cases hr : env.readLink e.path with
        | error ioe => rw [hr] at h; cases h
        | ok target =>
          rw [hr] at h
          simp only [Option.some.injEq, Except.ok.injEq] at h
          subst h
          simp [hk]
      · rw [if_neg hk] at h
        simp only [Option.some.injEq, Except.ok.injEq] at h
        subst h
        simp [hk]

/-- The closed form of `formatSize` with the unit constants evaluated. -/
theorem formatSize_eq (b : Nat) : formatSize b =
    if b < 1000 then toString b ++ "B"
    else if b < 1000000 then
      toString (b / 1000) ++ "." ++ toString (b % 1000 / 100) ++ "K"
    else if b < 1000000000 then
      toString (b / 1000000) ++ "." ++ toString (b % 1000000 / 100000) ++ "G"
    else
      toString (b / 1000000000) ++ "." ++ toString (b % 1000000000 / 100000000) ++ "T" := rfl

/-- Counterexample to C1 as stated: the claim places every byte count below
`10^12` in the `G` tier, but at `10^9` bytes the code (whose `TERABYTE`
constant is `10^9`) already emits the `T` suffix: `formatSize` yields
`"1.0T"` where the claim's own four-tier scheme yields `"1000.0G"`. -/
theorem C1_counterexample :
    formatSize 1000000000 = "1.0T" ∧ formatSizeClaimed 1000000000 = "1000.0G" ∧
      ("1.0T" : String) ≠ "1000.0G" :=
  ⟨by decide, by decide, by decide⟩

/-- **C1 (amended)**: the size string follows a four-tier base-1000
truncating scheme with tiers at `10^3`, `10^6` and `10^9` (the code's
`KILOBYTE`, `GIGABYTE`, `TERABYTE` constants): below `10^3` the integer
followed by `B`; below `10^6` truncated kilobytes and the truncated tenths
digit followed by `K`; below `10^9` the same truncation against the `10^6`
unit followed by `G`; otherwise against `10^9` followed by `T`.  The
boundary examples 999/1000/999999/1000000/1999 hold as claimed, and the
`Entry → LongEntry` conversion stores exactly this string. -/
theorem C1_amended_size_format (b : Nat) :
    (b < 1000 → formatSize b = toString b ++ "B") ∧
    (1000 ≤ b → b < 1000000 →
      formatSize b = toString (b / 1000) ++ "." ++ toString (b / 100 % 10) ++ "K") ∧
    (1000000 ≤ b → b < 1000000000 →
      formatSize b = toString (b / 1000000) ++ "." ++ toString (b / 100000 % 10) ++ "G") ∧
    (1000000000 ≤ b →
      formatSize b = toString (b / 1000000000) ++ "." ++ toString (b / 100000000 % 10) ++ "T") ∧
    formatSize 999 = "999B" ∧ formatSize 1000 = "1.0K" ∧ formatSize 999999 = "999.9K" ∧
    formatSize 1000000 = "1.0G" ∧ formatSize 1999 = "1.9K" ∧
    (∀ (env : OsEnv) (e : Entry) (le : LongEntry),
      LongEntry.tryFrom env e = some (.ok le) → le.size = formatSize e.metadata.size) := by
  refine ⟨?_, ?_, ?_, ?_, by decide, by decide, by decide, by decide, by decide,
    fun env e le h => (LongEntry.tryFrom_ok_fields h).2.1⟩
  · intro h
    rw [formatSize_eq, if_pos h]
  · intro h1 h2
    have key : b % 1000 / 100 = b / 100 % 10 := by
      have h3 := Nat.mod_mul_right_div_self b 100 10
      norm_num at h3
      exact h3
    rw [formatSize_eq, if_neg (by omega), if_pos h2, key]
  · intro h1 h2
    have key : b % 1000000 / 100000 = b / 100000 % 10 := by
      have h3 := Nat.mod_mul_right_div_self b 100000 10
      norm_num at h3
      exact h3
    rw [formatSize_eq, if_neg (by omega), if_neg (by omega), if_pos h2, key]
  · intro h1
    have key : b % 1000000000 / 100000000 = b / 100000000 % 10 := by
      have h3 := Nat.mod_mul_right_div_self b 100000000 10
      norm_num at h3
      exact h3
    rw [formatSize_eq, if_neg (by omega), if_neg (by omega), if_neg (by omega), key]

/-- Witness for C1 (amended): the truncation tier at 1999 bytes. -/
theorem C1_amended_size_format_witness :
    formatSize 1999 = toString (1999 / 1000) ++ "." ++ toString (1999 / 100 % 10) ++ "K" :=
  (C1_amended_size_format 1999).2.1 (by decide) (by decide)

/-- **C2** (documenting the code bug): there is no guard for
`entries_per_line = 0`.  For a single 12-byte file name and terminal width
5, the fast path does not apply, `entries_per_line = 5 / (12 + 2) = 0`, and
the renderer evaluates `(index + 1) % 0`, a remainder by zero that panics —
modelled as `none` — instead of printing each entry on its own line. -/
theorem C2_division_guard_missing :
    printEntriesShort (some 5) [⟨Kind.file, "rhododendron", ⟨0, 0, 0, 0⟩, ""⟩] = none ∧
    5 / (shortMaxW [⟨Kind.file, "rhododendron", ⟨0, 0, 0, 0⟩, ""⟩] + 2) = 0 :=
  ⟨by decide, by decide⟩

/-- **C5** (documenting the code bug): when the owner ID has no entry in
the identity database, `getpwuid` returns NULL and the conversion
dereferences it unconditionally — a crash (modelled `none`), not a
documented fallback value. -/
theorem C5_missing_identity_crash :
    LongEntry.tryFrom ⟨fun _ => none, fun _ => none, fun _ => Except.error ⟨"", none⟩⟩
      ⟨Kind.file, "report", ⟨4242, 4242, 10, 0⟩, "report"⟩ = none := rfl

/-- **C10**: when the terminal size cannot be determined, the renderer uses
a fixed fallback width of 80 columns for every layout decision (the whole
short-mode body runs against width 80), not the 0/unbounded convention. -/
theorem C10_width_fallback :
    resolveWidth none = 80 ∧ resolveWidth none ≠ 0 ∧
      (∀ w, resolveWidth (some w) = w) ∧
      (∀ entries, printEntriesShort none entries = printEntriesShortCore entries 80) :=
  ⟨rfl, by decide, fun w => rfl, fun entries => rfl⟩

/-- **C6**: on a listing whose conversions all succeed, `read_entries` with
`all = true` returns exactly the converted entries in directory order (no
sorting, nothing excluded), and with `all = false` it returns exactly the
same sequence with the dot-prefixed names removed — hidden-name filtering
is the only filtering performed. -/
theorem C6_hidden_filtering (ds : List DirEntry)
    (h : ∀ d ∈ ds, (Entry.tryFrom d).isOk) :
    readEntries ds true = .ok (convertedEntries ds) ∧
    readEntries ds false = .ok ((convertedEntries ds).filter fun e => !e.isHidden) := by
  induction ds with
  | nil => exact ⟨rfl, rfl⟩
  | cons d rest ih =>
    have hd := h d (by simp)
    have hrest : ∀ x ∈ rest, (Entry.tryFrom x).isOk := fun x hx => h x (by simp [hx])
    obtain ⟨ih1, ih2⟩ := ih hrest
    cases htf : Entry.tryFrom d with
    | error err => rw [htf] at hd; simp [Except.isOk, Except.toBool] at hd
    | ok e =>
      have hconv : convertedEntries (d :: rest) = e :: convertedEntries rest := by
        unfold convertedEntries
        simp [List.filterMap_cons, htf, Except.toOption]
      constructor
      · simp only [readEntries, htf, ih1, hconv]
        rfl
      · simp only [readEntries, htf, ih2, hconv]
        cases hh : e.isHidden with
        | true => simp [List.filter_cons, hh]
        | false => simp [List.filter_cons, hh]

/-- Witness for C6 at a concrete listing containing a hidden and a visible
entry. -/
theorem C6_hidden_filtering_witness :
    readEntries
      [⟨Except.ok ".git", Except.ok FileType.dir, Except.ok ⟨0, 0, 0, 0⟩, ".git"⟩,
       ⟨Except.ok "src", Except.ok FileType.dir, Except.ok ⟨0, 0, 0, 0⟩, "src"⟩]
      false = Except.ok [⟨Kind.directory, "src", ⟨0, 0, 0, 0⟩, "src"⟩] := by
  have h := (C6_hidden_filtering
    [⟨Except.ok ".git", Except.ok FileType.dir, Except.ok ⟨0, 0, 0, 0⟩, ".git"⟩,
     ⟨Except.ok "src", Except.ok FileType.dir, Except.ok ⟨0, 0, 0, 0⟩, "src"⟩]
    (by decide)).2
  rw [h]
  rfl

/-- **C7**: `read_entries` is all-or-nothing — the first failing entry
conversion aborts the whole read with that error and no partial list is
returned; in particular a raw entry whose name is not valid Unicode makes
the conversion fail with precisely `Error::StringConversion`. -/
theorem C7_first_error_aborts (pre : List DirEntry) (d : DirEntry) (rest : List DirEntry)
    (err : Error) (all : Bool)
    (hpre : ∀ x ∈ pre, (Entry.tryFrom x).isOk)
    (hd : Entry.tryFrom d = .error err) :
    readEntries (pre ++ d :: rest) all = .error err ∧
    (∀ (u : Unit) (ft : Except IoError FileType) (md : Except IoError Metadata) (p : String),
      Entry.tryFrom ⟨.error u, ft, md, p⟩ = .error .stringConversion) := by
  refine ⟨?_, fun u ft md p => rfl⟩
  revert hpre
  induction pre with
  | nil =>
    intro hpre
    simp only [List.nil_append, readEntries, hd]
  | cons x xs ih =>
    intro hpre
    have hx := hpre x (by simp)
    have hxs : ∀ y ∈ xs, (Entry.tryFrom y).isOk := fun y hy => hpre y (by simp [hy])
    cases htf : Entry.tryFrom x with
    | error e2 => rw [htf] at hx; simp [Except.isOk, Except.toBool] at hx
    | ok e =>
      have ih2 := ih hxs
      simp only [List.cons_append, readEntries, htf, List.append_eq, ih2]

/-- Witness for C7 at a concrete listing: a valid entry followed by a
non-Unicode name fails the whole read with the string-conversion error. -/
theorem C7_first_error_aborts_witness :
    readEntries
      [⟨Except.ok "good", Except.ok FileType.file, Except.ok ⟨0, 0, 0, 0⟩, "good"⟩,
       ⟨Except.error (), Except.ok FileType.file, Except.ok ⟨0, 0, 0, 0⟩, "bad"⟩]
      false = Except.error Error.stringConversion := by
  have h := (C7_first_error_aborts
    [⟨Except.ok "good", Except.ok FileType.file, Except.ok ⟨0, 0, 0, 0⟩, "good"⟩]
    ⟨Except.error (), Except.ok FileType.file, Except.ok ⟨0, 0, 0, 0⟩, "bad"⟩
    [] Error.stringConversion false (by decide) (by rfl)).1
  simpa using h

/-- A long entry whose display does not panic has a displayed text. -/
theorem LongEntry.display_isSome (le : LongEntry)
    (h : le.entry.kind = Kind.symlink → le.linkTarget.isSome) :
    ∃ d, le.display = some d := by
  unfold LongEntry.display
  by_cases hk : le.entry.kind = Kind.symlink
  · have hs := h hk
    cases ht : le.linkTarget with
    | none => rw [ht] at hs; cases hs
    | some t => rw [if_pos hk]; exact ⟨_, rfl⟩
  · rw [if_neg hk]; exact ⟨_, rfl⟩

/-- The code's long-mode line equals the right-aligned specification line
whenever the display succeeds. -/
theorem longLine_spec (maxO maxG maxS : Nat) (le : LongEntry) (d : String)
    (h : le.display = some d) :
    longLine maxO maxG maxS le = some (longLineSpec maxO maxG maxS le) := by
  unfold longLine longLineSpec rightAlign
  rw [h]
  simp [String.append_assoc]

/-- `print_entries_long` against generalized column widths. -/
theorem joinLines_spec (l : List LongEntry) (maxO maxG maxS : Nat)
    (h : ∀ le ∈ l, le.entry.kind = Kind.symlink → le.linkTarget.isSome) :
    joinLines (l.map (longLine maxO maxG maxS)) =
      some (String.join (l.map (longLineSpec maxO maxG maxS))) := by
  induction l with
  | nil => rfl
  | cons le rest ih =>
    obtain ⟨d, hd⟩ := LongEntry.display_isSome le (h le (by simp))
    have hrest : ∀ x ∈ rest, x.entry.kind = Kind.symlink → x.linkTarget.isSome :=
      fun x hx => h x (by simp [hx])
    simp only [List.map_cons, joinLines, longLine_spec maxO maxG maxS le d hd, ih hrest]
    rw [strJoin_cons]

/-- **C8**: in long mode every entry is rendered on one line as
right-aligned owner, space, right-aligned group, space, right-aligned size,
space, then the displayed name, each of the three columns padded to the
batch-wide maximum of that field (computed once per field); symlinks render
as `name -> target` and non-symlinks render as the plain entry text (no
arrow is ever appended); the conversion always stores a target for a
symlink, so its display never panics. -/
theorem C8_long_mode (entries : List LongEntry)
    (h : ∀ le ∈ entries, le.entry.kind = Kind.symlink → le.linkTarget.isSome) :
    printEntriesLong entries = some (String.join (entries.map
      (longLineSpec (maxFieldWidth (fun v => v.owner) entries)
        (maxFieldWidth (fun v => v.group) entries)
        (maxFieldWidth (fun v => v.size) entries)))) ∧
    (∀ (le : LongEntry) (t : String), le.entry.kind = Kind.symlink → le.linkTarget = some t →
      le.display = some (le.entry.name ++ " -> " ++ t)) ∧
    (∀ le : LongEntry, le.entry.kind ≠ Kind.symlink →
      le.display = some le.entry.displayText) ∧
    (∀ (env : OsEnv) (e : Entry) (le : LongEntry), LongEntry.tryFrom env e = some (.ok le) →
      le.entry.kind = Kind.symlink → le.linkTarget.isSome) := by
  refine ⟨joinLines_spec entries _ _ _ h, ?_, ?_, ?_⟩
  · intro le t hk ht
    unfold LongEntry.display
    rw [if_pos hk, ht]
  · intro le hk
    unfold LongEntry.display
    rw [if_neg hk]
  · intro env e le htf hk
    obtain ⟨he, _, hiff⟩ := LongEntry.tryFrom_ok_fields htf
    exact hiff.mpr (he ▸ hk)

/-- Witness for C8 at a concrete batch: a symlink and a directory, with the
owner/group/size columns padded to their per-field maxima. -/
theorem C8_long_mode_witness :
    printEntriesLong
      [⟨⟨Kind.symlink, "link", ⟨0, 0, 5, 0⟩, "link"⟩, "root", "wheel", "5B", some "target"⟩,
       ⟨⟨Kind.directory, "src", ⟨0, 0, 0, 0⟩, "src"⟩, "bob", "staff", "12B", none⟩]
      = some "root wheel  5B link -> target\n bob staff 12B src/\n" := by
  have h := (C8_long_mode
    [⟨⟨Kind.symlink, "link", ⟨0, 0, 5, 0⟩, "link"⟩, "root", "wheel", "5B", some "target"⟩,
     ⟨⟨Kind.directory, "src", ⟨0, 0, 0, 0⟩, "src"⟩, "bob", "staff", "12B", none⟩]
    (by decide)).1
  rw [h]
  rfl

/-- A character that is not a bad flag is `a` or `l`. -/
theorem badFlagChar_false {d : Char} (hb : badFlagChar d = false) : d = 'a' ∨ d = 'l' := by
  by_contra hcon
  push_neg at hcon
  simp [badFlagChar, hcon.1, hcon.2] at hb

/-- The inner flag loop fails with the first unrecognized character,
whatever the running flag state is. -/
theorem parseFlagChars_err (cs : List Char) : ∀ (all long : Bool) (c : Char),
    cs.find? badFlagChar = some c →
    parseFlagChars cs all long = .error (.unknownFlag (String.mk [c])) := by
  induction cs with
  | nil => intro all long c h; cases h
  | cons d ds ih =>
    intro all long c h
    rw [List.find?_cons] at h
    cases hb : badFlagChar d with
    | true =>
      rw [hb] at h
      have hdc : d = c := by injection h
      subst hdc
      have ha : ¬ d = 'a' := by
        intro hda; subst hda; simp [badFlagChar] at hb
      have hl : ¬ d = 'l' := by
        intro hdl; subst hdl; simp [badFlagChar] at hb
      simp only [parseFlagChars, if_neg ha, if_neg hl]
    | false =>
      rw [hb] at h
      rcases badFlagChar_false hb with rfl | rfl
      · have hstep : parseFlagChars ('a' :: ds) all long = parseFlagChars ds true long := by
          simp [parseFlagChars]
        rw [hstep]
        exact ih _ _ _ h
      · have hstep : parseFlagChars ('l' :: ds) all long = parseFlagChars ds all true := by
          simp [parseFlagChars]
        rw [hstep]
        exact ih _ _ _ h

/-- The inner flag loop succeeds when no unrecognized character occurs. -/
theorem parseFlagChars_ok (cs : List Char) : ∀ (all long : Bool),
    cs.find? badFlagChar = none →
    ∃ r, parseFlagChars cs all long = .ok r := by
  induction cs with
  | nil => intro all long _; exact ⟨_, rfl⟩
  | cons d ds ih =>
    intro all long h
    rw [List.find?_cons] at h
    cases hb : badFlagChar d with
    | true => rw [hb] at h; cases h
    | false =>
      rw [hb] at h
      rcases badFlagChar_false hb with rfl | rfl
      · have hstep : parseFlagChars ('a' :: ds) all long = parseFlagChars ds true long := by
          simp [parseFlagChars]
        rw [hstep]
        exact ih _ _ h
      · have hstep : parseFlagChars ('l' :: ds) all long = parseFlagChars ds all true := by
          simp [parseFlagChars]
        rw [hstep]
        exact ih _ _ h

/-- The outer flag loop fails with the first unrecognized character of the
concatenated, dash-stripped flag arguments. -/
theorem parseFlagsGo_err (args : List String) : ∀ (all long : Bool) (c : Char),
    ((args.map fun a => trimDashes a.data).flatten).find? badFlagChar = some c →
    parseFlagsGo args all long = .error (.unknownFlag (String.mk [c])) := by
  induction args with
  | nil => intro all long c h; cases h
  | cons a rest ih =>
    intro all long c h
    simp only [List.map_cons, List.flatten_cons] at h
    rw [List.find?_append] at h
    cases hfa : (trimDashes a.data).find? badFlagChar with
    | some c2 =>
      rw [hfa] at h
      have hc : c2 = c := by injection h
      subst hc
      simp only [parseFlagsGo, parseFlagChars_err (trimDashes a.data) all long c2 hfa]
    | none =>
      rw [hfa] at h
      have h2 : ((List.map (fun a => trimDashes a.data) rest).flatten).find? badFlagChar
          = some c := h
      obtain ⟨⟨all2, long2⟩, hr⟩ := parseFlagChars_ok (trimDashes a.data) all long hfa
      simp only [parseFlagsGo]
      rw [hr]
      exact ih all2 long2 c h2

/-- `parse_flags` fails with the first unrecognized bundled flag character. -/
theorem parseFlags_err (argv : List String) (c : Char)
    (h : firstBadFlag argv = some c) :
    parseFlags argv = .error (.unknownFlag (String.mk [c])) := by
  unfold firstBadFlag bundledFlagChars at h
  exact parseFlagsGo_err _ false false c h

/-- **C9**: a command line whose bundled flags (before the first non-flag
argument or `--`) contain a character other than `a` or `l` makes the
program fail with `Unknown flag "<char>"` and exit code 1 (non-zero), and
the failure is decided before any directory access: the result does not
depend on the directory contents at all. -/
theorem C9_unknown_flag (argv : List String) (dir : List DirEntry) (env : OsEnv)
    (ts : Option Nat) (c : Char) (h : firstBadFlag argv = some c) :
    parseFlags argv = .error (.unknownFlag (String.mk [c])) ∧
    mainLs argv dir env ts = some (.error (.unknownFlag (String.mk [c]))) ∧
    (Error.unknownFlag (String.mk [c])).message =
      "Unknown flag \"" ++ String.mk [c] ++ "\"" ∧
    (Error.unknownFlag (String.mk [c])).code = 1 ∧
    (∀ dir2 : List DirEntry, mainLs argv dir2 env ts = mainLs argv dir env ts) := by
  have hp := parseFlags_err argv c h
  have hmain : ∀ d : List DirEntry,
      mainLs argv d env ts = some (.error (.unknownFlag (String.mk [c]))) := by
    intro d
    unfold mainLs
    rw [hp]
  exact ⟨hp, hmain dir, rfl, rfl, fun dir2 => (hmain dir2).trans (hmain dir).symm⟩

/-- Witness for C9: `ls -z` fails with `Unknown flag "z"` for any directory
contents. -/
theorem C9_unknown_flag_witness :
    parseFlags ["ls", "-z"] = .error (.unknownFlag (String.mk ['z'])) ∧
    mainLs ["ls", "-z"] [] ⟨fun _ => none, fun _ => none, fun _ => Except.error ⟨"", none⟩⟩
      none = some (.error (.unknownFlag (String.mk ['z']))) :=
  ⟨(C9_unknown_flag ["ls", "-z"] []
      ⟨fun _ => none, fun _ => none, fun _ => Except.error ⟨"", none⟩⟩ none 'z' (by decide)).1,
   (C9_unknown_flag ["ls", "-z"] []
      ⟨fun _ => none, fun _ => none, fun _ => Except.error ⟨"", none⟩⟩ none 'z' (by decide)).2.1⟩

/-! ### Grid-layout lemmas for C4 -/

theorem fastLine_intercalate (entries : List Entry) (h : entries ≠ []) :
    fastLine entries = String.intercalate "  " (entries.map Entry.displayText) ++ "\n" := by
  induction entries with
  | nil => exact absurd rfl h
  | cons e rest ih =>
    cases rest with
    | nil => rfl
    | cons e2 rest2 =>
      have ihh := ih (by simp)
      show e.displayText ++ "  " ++ fastLine (e2 :: rest2) = _
      rw [ihh]
      simp only [List.map_cons]
      rw [intercalate_cons₂]
      simp [String.append_assoc]

theorem chunksOf_cons (n : Nat) (x : Entry) (xs : List Entry) :
    chunksOf n (x :: xs) = (x :: xs.take (n - 1)) :: chunksOf n (xs.drop (n - 1)) := by
  rw [chunksOf]

theorem take_cons_sub {n : Nat} (hn : 1 ≤ n) (x : Entry) (xs : List Entry) :
    x :: xs.take (n - 1) = (x :: xs).take n := by
  cases n with
  | zero => omega
  | succ m => rfl

theorem drop_cons_sub {n : Nat} (hn : 1 ≤ n) (x : Entry) (xs : List Entry) :
    xs.drop (n - 1) = (x :: xs).drop n := by
  cases n with
  | zero => omega
  | succ m => rfl

/-- A row that ends exactly at a row boundary renders as a full row: every
cell padded with the gutter except the last, which gets the newline. -/
theorem colLoop_full_row (epl maxW : Nat) :
    ∀ (row : List Entry), row ≠ [] → ∀ (rest : List Entry) (p : Nat),
    p % epl + row.length = epl →
    colLoop epl maxW p (row ++ rest) =
      rowFull maxW row ++ colLoop epl maxW (p + row.length) rest := by
  intro row
  induction row with
  | nil => intro h; exact absurd rfl h
  | cons e row2 ih =>
    intro _ rest p hlen
    cases row2 with
    | nil =>
      have h0 : (p + 1) % epl = 0 := mod_succ_eq (by simpa using hlen)
      show (if (p + 1) % epl = 0 then e.displayText ++ "\n" else padCell maxW e)
          ++ colLoop epl maxW (p + 1) rest = _
      rw [if_pos h0]
      simp [rowFull, String.append_assoc]
    | cons e2 row3 =>
      have hlt : p % epl + 1 < epl := by
        simp only [List.length_cons] at hlen
        omega
      have h1 : (p + 1) % epl = p % epl + 1 := mod_succ_lt hlt
      have hne0 : (p + 1) % epl ≠ 0 := by omega
      show (if (p + 1) % epl = 0 then e.displayText ++ "\n" else padCell maxW e)
          ++ colLoop epl maxW (p + 1) ((e2 :: row3) ++ rest) = _
      rw [if_neg hne0]
      rw [ih (by simp) rest (p + 1) (by simp only [List.length_cons] at hlen ⊢; omega)]
      have harith : p + 1 + (e2 :: row3).length = p + (e :: e2 :: row3).length := by
        simp only [List.length_cons]
        omega
      rw [harith]
      simp [rowFull, String.append_assoc]

/-- A run that stays strictly inside a row renders every cell padded. -/
theorem colLoop_inside_row (epl maxW : Nat) :
    ∀ (l : List Entry) (p : Nat), p % epl + l.length < epl →
    colLoop epl maxW p l = String.join (l.map (padCell maxW)) := by
  intro l
  induction l with
  | nil => intro p _; rfl
  | cons e l2 ih =>
    intro p h
    have hlt : p % epl + 1 < epl := by
      simp only [List.length_cons] at h
      omega
    have h1 : (p + 1) % epl = p % epl + 1 := mod_succ_lt hlt
    have hne0 : (p + 1) % epl ≠ 0 := by omega
    show (if (p + 1) % epl = 0 then e.displayText ++ "\n" else padCell maxW e)
        ++ colLoop epl maxW (p + 1) l2 = _
    rw [if_neg hne0]
    rw [ih (p + 1) (by rw [h1]; simp only [List.length_cons] at h; omega)]
    rw [List.map_cons, strJoin_cons]

/-- The column loop started at a row boundary, with the trailing-newline
fix-up of entry.rs 230–232, renders exactly the chunked grid. -/
theorem colLoop_chunks (epl maxW : Nat) (he : 1 ≤ epl) :
    ∀ (n : Nat) (l : List Entry), l.length ≤ n → ∀ p, p % epl = 0 →
    colLoop epl maxW p l ++ (if l.length % epl = 0 then "" else "\n")
      = String.join ((chunksOf epl l).map (renderRow epl maxW)) := by
  intro n
  induction n with
  | zero =>
    intro l hl p hp
    have hnil : l = [] := List.eq_nil_of_length_eq_zero (by omega)
    subst hnil
    have hc : (([] : List Entry).length % epl = 0) := by simp
    rw [if_pos hc, show chunksOf epl ([] : List Entry) = [] from by rw [chunksOf]]
    rfl
  | succ n ih =>
    intro l hl p hp
    cases l with
    | nil =>
      have hc : (([] : List Entry).length % epl = 0) := by simp
      rw [if_pos hc, show chunksOf epl ([] : List Entry) = [] from by rw [chunksOf]]
      rfl
    | cons x xs =>
      rw [chunksOf_cons, take_cons_sub he x xs, drop_cons_sub he x xs]
      by_cases hge : epl ≤ (x :: xs).length
      · have hrow_len : ((x :: xs).take epl).length = epl := by
          rw [List.length_take]
          exact min_eq_left hge
        have hrow_ne : (x :: xs).take epl ≠ [] := by
          cases epl with
          | zero => omega
          | succ m => simp
        have hcol : colLoop epl maxW p (x :: xs) =
            colLoop epl maxW p ((x :: xs).take epl ++ (x :: xs).drop epl) := by
          rw [List.take_append_drop]
        rw [hcol, colLoop_full_row epl maxW ((x :: xs).take epl) hrow_ne ((x :: xs).drop epl) p
          (by rw [hp, hrow_len]; omega)]
        have hl2 : ((x :: xs).drop epl).length ≤ n := by
          rw [List.length_drop]
          simp only [List.length_cons] at hl ⊢
          omega
        have hmod : (p + ((x :: xs).take epl).length) % epl = 0 := by
          rw [hrow_len, Nat.add_mod_right]
          exact hp
        have hlen_split : (x :: xs).length % epl = ((x :: xs).drop epl).length % epl := by
          rw [List.length_drop]
          exact Nat.mod_eq_sub_mod hge
        rw [String.append_assoc, hlen_split,
          ih ((x :: xs).drop epl) hl2 (p + ((x :: xs).take epl).length) hmod,
          List.map_cons, strJoin_cons]
        unfold renderRow
        rw [if_pos hrow_len]
      · have hlt : (x :: xs).length < epl := by omega
        have htake : (x :: xs).take epl = x :: xs := List.take_of_length_le (by omega)
        have hdrop : (x :: xs).drop epl = [] := List.drop_of_length_le (by omega)
        rw [htake, hdrop]
        have hmodlen : (x :: xs).length % epl = (x :: xs).length := Nat.mod_eq_of_lt hlt
        rw [colLoop_inside_row epl maxW (x :: xs) p (by rw [hp]; omega)]
        rw [if_neg (by rw [hmodlen]; simp)]
        rw [show chunksOf epl ([] : List Entry) = [] from by rw [chunksOf]]
        rw [show List.map (renderRow epl maxW) [x :: xs] = [renderRow epl maxW (x :: xs)]
          from rfl]
        rw [strJoin_cons]
        unfold renderRow
        rw [if_neg (by omega)]
        rw [show String.join ([] : List String) = "" from rfl]
        simp

/-- The rows produced by chunking: every row is non-empty with at most
`epl` entries, and every row except possibly the last has exactly `epl`. -/
theorem chunksOf_shape (epl : Nat) (he : 1 ≤ epl) :
    ∀ (n : Nat) (l : List Entry), l.length ≤ n →
    (∀ row ∈ chunksOf epl l, row ≠ [] ∧ row.length ≤ epl) ∧
    (∀ row ∈ (chunksOf epl l).dropLast, row.length = epl) := by
  intro n
  induction n with
  | zero =>
    intro l hl
    have hnil : l = [] := List.eq_nil_of_length_eq_zero (by omega)
    subst hnil
    simp [chunksOf]
  | succ n ih =>
    intro l hl
    cases l with
    | nil => simp [chunksOf]
    | cons x xs =>
      rw [chunksOf_cons, take_cons_sub he x xs, drop_cons_sub he x xs]
      have hl2 : ((x :: xs).drop epl).length ≤ n := by
        rw [List.length_drop]
        simp only [List.length_cons] at hl ⊢
        omega
      have hih := ih ((x :: xs).drop epl) hl2
      constructor
      · intro row hrow
        rcases List.mem_cons.mp hrow with rfl | hmem
        · constructor
          · cases epl with
            | zero => omega
            | succ m => simp
          · rw [List.length_take]
            exact min_le_left _ _
        · exact hih.1 row hmem
      · intro row hrow
        cases hcd : chunksOf epl ((x :: xs).drop epl) with
        | nil =>
          rw [hcd] at hrow
          simp at hrow
        | cons c cs =>
          rw [hcd] at hrow
          rw [List.dropLast_cons₂] at hrow
          rcases List.mem_cons.mp hrow with rfl | hmem
          · have hdne : (x :: xs).drop epl ≠ [] := by
              intro hcon
              rw [hcon,
                show chunksOf epl ([] : List Entry) = [] from by rw [chunksOf]] at hcd
              cases hcd
            have hlt : epl < (x :: xs).length := by
              by_contra hcon
              push_neg at hcon
              exact hdne (List.drop_of_length_le hcon)
            rw [List.length_take]
            exact min_eq_left (by omega)
          · have hih2 := hih.2
            rw [hcd] at hih2
            exact hih2 row hmem

/-- Counterexample to C4 as stated: with entries `aaa`,`bbb`,`ccc` (files)
and width 10, the grid has two entries per row and the last (partial) row's
final entry is right-padded and followed by the two-space gutter before the
final newline — the output is `"aaa  bbb\nccc  \n"`, not the claimed
`"aaa  bbb\nccc\n"` with no padding after the last entry of each row.
Moreover, when `entries_per_line` is 0 (single file `aaaa`, width 3) the
claimed row-major output does not exist at all: the code panics. -/
theorem C4_counterexample :
    printEntriesShort (some 10)
      [⟨Kind.file, "aaa", ⟨0, 0, 0, 0⟩, ""⟩, ⟨Kind.file, "bbb", ⟨0, 0, 0, 0⟩, ""⟩,
       ⟨Kind.file, "ccc", ⟨0, 0, 0, 0⟩, ""⟩] = some "aaa  bbb\nccc  \n" ∧
    ("aaa  bbb\nccc  \n" : String) ≠ "aaa  bbb\nccc\n" ∧
    printEntriesShort (some 3) [⟨Kind.file, "aaaa", ⟨0, 0, 0, 0⟩, ""⟩] = none :=
  ⟨by decide, by decide, by decide⟩

/-- **C4 (amended)**: for a non-empty batch, if all entries plus two-space
separators fit in the width the output is the single line of entries
joined by two spaces (no trailing separator) plus the final newline;
otherwise, provided `entries_per_line ≥ 1` (below that the code panics,
see C2), the output is the row-major grid of rows of `entries_per_line`
entries (the last row possibly shorter): in every full row each entry but
the last is padded to the batch maximum width plus a two-space gutter and
the last entry gets a bare newline, while in a shorter final row every
entry — including the last — is padded with the gutter, followed by the
single final newline; chunking guarantees every row except possibly the
last has exactly `entries_per_line` entries. -/
theorem C4_amended_grid (entries : List Entry) (width : Nat) (hne : entries ≠ []) :
    (width ≥ usizeSub (shortTotal entries) 2 →
      printEntriesShortCore entries width =
        some (String.intercalate "  " (entries.map Entry.displayText) ++ "\n")) ∧
    (¬ width ≥ usizeSub (shortTotal entries) 2 →
      1 ≤ width / (shortMaxW entries + 2) →
      printEntriesShortCore entries width =
        some (gridSpec (width / (shortMaxW entries + 2)) (shortMaxW entries) entries)) ∧
    (∀ epl : Nat, 1 ≤ epl → ∀ row ∈ (chunksOf epl entries).dropLast, row.length = epl) ∧
    (∀ epl : Nat, 1 ≤ epl → ∀ row ∈ chunksOf epl entries, row ≠ [] ∧ row.length ≤ epl) := by
  refine ⟨?_, ?_, ?_, ?_⟩
  · intro hfit
    unfold printEntriesShortCore
    rw [if_pos hfit, fastLine_intercalate entries hne]
  · intro hnofit hepl
    unfold printEntriesShortCore
    rw [if_neg hnofit]
    have hepl0 : ¬ width / (shortMaxW entries + 2) = 0 := by omega
    rw [if_neg hepl0]
    unfold gridSpec
    exact congrArg some
      (colLoop_chunks (width / (shortMaxW entries + 2)) (shortMaxW entries) hepl
        entries.length entries (Nat.le_refl _) 0 (Nat.zero_mod _))
  · intro epl he
    exact (chunksOf_shape epl he entries.length entries (Nat.le_refl _)).2
  · intro epl he
    exact (chunksOf_shape epl he entries.length entries (Nat.le_refl _)).1

/-- Witness for C4 (amended): five two-byte names at width 9 give two
entries per line and the grid output. -/
theorem C4_amended_grid_witness :
    printEntriesShortCore
      [⟨Kind.file, "aa", ⟨0, 0, 0, 0⟩, ""⟩, ⟨Kind.file, "bb", ⟨0, 0, 0, 0⟩, ""⟩,
       ⟨Kind.file, "cc", ⟨0, 0, 0, 0⟩, ""⟩, ⟨Kind.file, "dd", ⟨0, 0, 0, 0⟩, ""⟩,
       ⟨Kind.file, "ee", ⟨0, 0, 0, 0⟩, ""⟩] 9 =
    some (gridSpec
      (9 / (shortMaxW
        [⟨Kind.file, "aa", ⟨0, 0, 0, 0⟩, ""⟩, ⟨Kind.file, "bb", ⟨0, 0, 0, 0⟩, ""⟩,
         ⟨Kind.file, "cc", ⟨0, 0, 0, 0⟩, ""⟩, ⟨Kind.file, "dd", ⟨0, 0, 0, 0⟩, ""⟩,
         ⟨Kind.file, "ee", ⟨0, 0, 0, 0⟩, ""⟩] + 2))
      (shortMaxW
        [⟨Kind.file, "aa", ⟨0, 0, 0, 0⟩, ""⟩, ⟨Kind.file, "bb", ⟨0, 0, 0, 0⟩, ""⟩,
         ⟨Kind.file, "cc", ⟨0, 0, 0, 0⟩, ""⟩, ⟨Kind.file, "dd", ⟨0, 0, 0, 0⟩, ""⟩,
         ⟨Kind.file, "ee", ⟨0, 0, 0, 0⟩, ""⟩])
      [⟨Kind.file, "aa", ⟨0, 0, 0, 0⟩, ""⟩, ⟨Kind.file, "bb", ⟨0, 0, 0, 0⟩, ""⟩,
       ⟨Kind.file, "cc", ⟨0, 0, 0, 0⟩, ""⟩, ⟨Kind.file, "dd", ⟨0, 0, 0, 0⟩, ""⟩,
       ⟨Kind.file, "ee", ⟨0, 0, 0, 0⟩, ""⟩]) :=
  (C4_amended_grid
    [⟨Kind.file, "aa", ⟨0, 0, 0, 0⟩, ""⟩, ⟨Kind.file, "bb", ⟨0, 0, 0, 0⟩, ""⟩,
     ⟨Kind.file, "cc", ⟨0, 0, 0, 0⟩, ""⟩, ⟨Kind.file, "dd", ⟨0, 0, 0, 0⟩, ""⟩,
     ⟨Kind.file, "ee", ⟨0, 0, 0, 0⟩, ""⟩] 9 (by decide)).2.1 (by decide) (by decide)

end Ls
